import Mathlib

/-!
Verification development for the Intercessio remote-signing daemon.

Shallow embedding of the core modules the specification talks about:
relay normalization (src/api/relays.ts), the signing-template registry
(src/signingTemplates), the provider sign handler
(src/api/provider.ts, requestHandlerFactory.onSignEvent), the in-memory
pending-approvals store (src/api/pending-approvals.ts), the durable
approval-task manager (src/api/db.ts appendix), the activity log
(src/api/activity-log.ts), and the session-manager operations of
src/server.ts.  Strings are Lean strings, epoch-millisecond clocks and
UUIDs are passed in explicitly, JavaScript exceptions are modelled with
Except, and promise resolutions are recorded in explicit logs.
-/

namespace Intercessio

/-- Whitespace test used to model JavaScript String.prototype.trim. -/
def isJsSpace (c : Char) : Bool :=
  c = ' ' || c = '\t' || c = '\n' || c = '\r' || c = '\x0b' || c = '\x0c'

/-- Drop leading and trailing whitespace from a character list. -/
def trimChars (l : List Char) : List Char :=
  ((l.dropWhile isJsSpace).reverse.dropWhile isJsSpace).reverse

/-- Model of JavaScript url.trim(). -/
def trimStr (s : String) : String := String.mk (trimChars s.data)

/-- Lower-case every character (models the i regex flag). -/
def lowerStr (s : String) : String := String.mk (s.data.map Char.toLower)

/-- Decidable string prefix test on the underlying character lists. -/
def strStartsWith (s p : String) : Bool := s.data.take p.data.length = p.data

/-- Test for the anchored case-insensitive regex wss?:\/\/ used by
cleanupRelay: the string starts with ws:// or wss://, any case. -/
def hasWsScheme (s : String) : Bool :=
  strStartsWith (lowerStr s) "ws://" || strStartsWith (lowerStr s) "wss://"

/-- Model of value.replace with the regex of one or more trailing
slashes: remove every trailing slash character. -/
def stripTrailingSlashes (s : String) : String :=
  String.mk ((s.data.reverse.dropWhile (fun c => c = '/')).reverse)

/-- Embedding of cleanupRelay from src/api/relays.ts: trim, return the
empty string for blank input, prefix wss:// when no ws scheme is
present, then strip trailing slashes. -/
def cleanupRelay (url : String) : String :=
  let value := trimStr url
  if value = "" then ""
  else
    let value := if hasWsScheme value then value else "wss://" ++ value
    stripTrailingSlashes value

/-- Insertion-order first-occurrence deduplication, the behaviour of
JavaScript Array.from applied to a Set built from the list. -/
def jsDedupAux (seen : List String) : List String → List String
  | [] => []
  | x :: xs => if x ∈ seen then jsDedupAux seen xs else x :: jsDedupAux (x :: seen) xs

/-- Deduplication keeping the first occurrence of each element. -/
def jsDedup (l : List String) : List String := jsDedupAux [] l

/-- DEFAULT_RELAYS from src/api/constants.ts. -/
def DEFAULT_RELAYS : List String := ["wss://relay.nsec.app", "wss://nos.lol"]

/-- Embedding of normalizeRelays from src/api/relays.ts.  The optional
argument models the optional relays parameter: none is undefined.  An
undefined or empty list is replaced by DEFAULT_RELAYS before cleaning;
blank entries are dropped by the filter and duplicates removed. -/
def normalizeRelays (relays : Option (List String)) : List String :=
  let list := match relays with
    | none => DEFAULT_RELAYS
    | some l => if l.isEmpty then DEFAULT_RELAYS else l
  jsDedup ((list.map cleanupRelay).filter (fun s => s ≠ ""))

/-- Split a character list on the slash character; segments may be
empty.  Used to express the relay regex from the specification. -/
def splitSegs : List Char → List (List Char)
  | [] => [[]]
  | c :: cs =>
    match splitSegs cs with
    | [] => [[]]
    | s :: rest => if c = '/' then [] :: s :: rest else (c :: s) :: rest

/-- Decidable version of the specification regex for relay entries:
the string is ws:// or wss:// followed by one or more segments, each
nonempty, separated by single slashes, with no trailing slash. -/
def matchesRelayPattern (s : String) : Bool :=
  let rest : Option (List Char) :=
    if strStartsWith s "wss://" then some (s.data.drop 6)
    else if strStartsWith s "ws://" then some (s.data.drop 5)
    else none
  match rest with
  | none => false
  | some r => (splitSegs r).all (fun seg => seg ≠ [])

/-! Signing-template registry (src/signingTemplates, src/api/signing-templates.ts). -/

/-- Decision of a signing policy (src/signingTemplates/types.ts). -/
inductive SigningDecision
  | SIGN
  | REFER
  | REJECT
deriving DecidableEq, Repr

/-- Draft Nostr event presented to a policy (nostr-tools EventTemplate,
restricted to the fields the core reads). -/
structure EventTemplate where
  kind : Nat
  content : String
  tagCount : Nat
deriving DecidableEq, Repr

/-- Session summary handed to policies (src/signingTemplates/types.ts). -/
structure SessionSummary where
  id : String
  aliasName : Option String
  type : String
deriving DecidableEq, Repr

/-- Evaluation context for a policy (src/signingTemplates/types.ts). -/
structure SigningContext where
  event : EventTemplate
  client : String
  session : SessionSummary
deriving DecidableEq, Repr

/-- Signing template (src/signingTemplates/types.ts).  The evaluate
function returns in Except because a JavaScript function may throw;
every template of the shipped registry always returns ok. -/
structure SigningTemplate where
  id : String
  label : String
  description : String
  evaluate : SigningContext → Except String SigningDecision

/-- Template auto_sign: always SIGN. -/
def autoSign : SigningTemplate where
  id := "auto_sign"
  label := "Auto sign everything"
  description := "Always approve every signing request without additional checks."
  evaluate := fun _ => .ok .SIGN

/-- Template login_requires_approval: SIGN kind 22242, REFER the rest. -/
def loginRequiresApproval : SigningTemplate where
  id := "login_requires_approval"
  label := "Login auto, others review"
  description := "Automatically approves kind 22242 login events while referring all other kinds for manual approval."
  evaluate := fun ctx =>
    if ctx.event.kind = 22242 then .ok .SIGN else .ok .REFER

/-- Template login_and_publish: SIGN kinds 22242 and 1, REJECT kind 0,
REFER the rest. -/
def loginAndPublish : SigningTemplate where
  id := "login_and_publish"
  label := "Login + publish"
  description := "Always sign login events and kind 1 notes. Profile updates are rejected. All other kinds require manual review."
  evaluate := fun ctx =>
    if ctx.event.kind = 22242 then .ok .SIGN
    else if ctx.event.kind = 1 then .ok .SIGN
    else if ctx.event.kind = 0 then .ok .REJECT
    else .ok .REFER

/-- Template online_login: SIGN kind 22242, REJECT the rest. -/
def onlineLogin : SigningTemplate where
  id := "online_login"
  label := "Logins only"
  description := "Only approve Nostr Connect login requests. All other kinds are rejected."
  evaluate := fun ctx =>
    if ctx.event.kind = 22242 then .ok .SIGN else .ok .REJECT

/-- The template catalog discovered by src/signingTemplates/index.ts
(directory scan, file order is irrelevant to lookups by id). -/
def templates : List SigningTemplate :=
  [autoSign, loginAndPublish, loginRequiresApproval, onlineLogin]

/-- Default fallback id from src/signingTemplates/index.ts. -/
def DEFAULT_FALLBACK_ID : String := "auto_sign"

/-- The default template: the registry entry with the fallback id, or
the first template when absent (auto_sign is present). -/
def defaultTemplate : SigningTemplate :=
  ((templates.find? (fun t => t.id = DEFAULT_FALLBACK_ID)).getD autoSign)

/-- DEFAULT_TEMPLATE_ID from src/signingTemplates/index.ts. -/
def DEFAULT_TEMPLATE_ID : String := defaultTemplate.id

/-- Embedding of getSigningTemplate: map lookup with silent fallback to
the default template for unknown ids. -/
def getSigningTemplate (id : String) : SigningTemplate :=
  ((templates.find? (fun t => t.id = id)).getD defaultTemplate)

/-- Embedding of getTemplateById from src/api/signing-templates.ts:
an absent id means the default id. -/
def getTemplateById (id : Option String) : SigningTemplate :=
  getSigningTemplate (id.getD DEFAULT_TEMPLATE_ID)

/-! In-memory pending approvals (src/api/pending-approvals.ts). -/

/-- Pending approval record held in the in-memory approvals map;
resolveDecision is modelled by the resolutions log of MemApprovals. -/
structure PendingApproval where
  id : String
  sessionId : String
  sessionLabel : Option String
  client : String
  description : String
  draft : EventTemplate
  policyId : String
  policyLabel : String
  createdAt : Nat
deriving DecidableEq, Repr

/-- State of src/api/pending-approvals.ts: the approvals map in
insertion order, plus a log of every resolveDecision call (promise
wake-up) with the boolean it delivered. -/
structure MemApprovals where
  approvals : List PendingApproval
  resolutions : List (String × Bool)
deriving DecidableEq, Repr

/-- The empty module state. -/
def MemApprovals.empty : MemApprovals := ⟨[], []⟩

/-- Embedding of createPendingApproval: registers the record under a
fresh uuid and returns the task id; the decision promise is represented
by the id itself (its resolution will appear in the resolutions log). -/
def createPendingApproval (uuid : String) (now : Nat)
    (sessionId : String) (sessionLabel : Option String) (client : String)
    (description : String) (draft : EventTemplate)
    (policyId policyLabel : String) (st : MemApprovals) :
    String × MemApprovals :=
  let record : PendingApproval :=
    { id := uuid, sessionId := sessionId, sessionLabel := sessionLabel
      client := client, description := description, draft := draft
      policyId := policyId, policyLabel := policyLabel, createdAt := now }
  (uuid, { st with approvals := st.approvals ++ [record] })

/-- Embedding of listPendingApprovals: a snapshot of the map values. -/
def listMemApprovals (st : MemApprovals) : List PendingApproval :=
  st.approvals

/-- Embedding of resolvePendingApproval: unknown ids return false; a
known id is removed from the map and its resolver called once.  The id
argument is optional because the server dereferences a request field
that may be absent (undefined). -/
def resolvePendingApproval (id : Option String) (approved : Bool)
    (st : MemApprovals) : Bool × MemApprovals :=
  match id with
  | none => (false, st)
  | some i =>
    match st.approvals.find? (fun a => a.id = i) with
    | none => (false, st)
    | some _ =>
      (true,
        { approvals := st.approvals.filter (fun a => a.id ≠ i)
          resolutions := st.resolutions ++ [(i, approved)] })

/-- Embedding of rejectApprovalsForSession: every approval of the
session is removed and its resolver called with false. -/
def rejectApprovalsForSession (sessionId : String) (st : MemApprovals) :
    MemApprovals :=
  { approvals := st.approvals.filter (fun a => a.sessionId ≠ sessionId)
    resolutions := st.resolutions ++
      ((st.approvals.filter (fun a => a.sessionId = sessionId)).map
        (fun a => (a.id, false))) }

/-! Activity log (src/api/activity-log.ts). -/

/-- Maximum number of retained activity entries. -/
def MAX_LOG_ENTRIES : Nat := 200

/-- Stored activity entry. -/
structure ActivityEntry where
  id : String
  sessionId : Option String
  sessionLabel : Option String
  type : String
  summary : String
  client : Option String
  timestamp : Nat
deriving DecidableEq, Repr

/-- Argument of recordActivity: an entry without id, with an optional
caller-supplied timestamp. -/
structure ActivityInput where
  sessionId : Option String
  sessionLabel : Option String
  type : String
  summary : String
  client : Option String
  timestamp : Option Nat
deriving DecidableEq, Repr

/-- Enrichment step of recordActivity: stamp the uuid and, unless a
timestamp was supplied, the current epoch-millisecond timestamp. -/
def enrichActivity (uuid : String) (now : Nat) (entry : ActivityInput) :
    ActivityEntry :=
  { id := uuid
    sessionId := entry.sessionId
    sessionLabel := entry.sessionLabel
    type := entry.type
    summary := entry.summary
    client := entry.client
    timestamp := entry.timestamp.getD now }

/-- Embedding of recordActivity continued: push the enriched entry to
the front and drop the last entry when the capacity is exceeded. -/
def recordActivity (uuid : String) (now : Nat) (entry : ActivityInput)
    (logState : List ActivityEntry) : List ActivityEntry :=
  let pushed := enrichActivity uuid now entry :: logState
  if MAX_LOG_ENTRIES < pushed.length then pushed.dropLast else pushed

/-- Embedding of listActivity: the buffer itself, newest first. -/
def listActivity (logState : List ActivityEntry) : List ActivityEntry :=
  logState

/-! Durable approval-task manager (the approval module layered on the
approval_tasks table of src/api/db.ts). -/

/-- Status column of an approval_tasks row. -/
inductive ApprovalStatus
  | pending
  | approved
  | rejected
  | expired
deriving DecidableEq, Repr

/-- A status other than pending, the argument type of resolveApproval. -/
inductive TerminalStatus
  | approved
  | rejected
  | expired
deriving DecidableEq, Repr

/-- View a terminal status as a status. -/
def TerminalStatus.toStatus : TerminalStatus → ApprovalStatus
  | .approved => .approved
  | .rejected => .rejected
  | .expired => .expired

/-- A row of the approval_tasks table, restricted to the columns the
verified claims read. -/
structure ApprovalTaskRow where
  id : String
  sessionId : String
  client : String
  draftJson : String
  createdAt : Nat
  expiresAt : Nat
  status : ApprovalStatus
deriving DecidableEq, Repr

/-- State of the durable approval manager: the approval_tasks table,
the in-memory waiter map (each registered waiter owns one armed
one-shot timer), the orphan timers armed on boot, and the log of
promise resolutions.  The daemon as shipped never imports this module
from its request path; it exists alongside the in-memory store. -/
structure DurableApprovals where
  rows : List ApprovalTaskRow
  waiters : List String
  orphanTimers : List String
  resolutions : List (String × Bool)
deriving DecidableEq, Repr

/-- The empty manager state (a freshly booted process). -/
def DurableApprovals.empty : DurableApprovals := ⟨[], [], [], []⟩

/-- Embedding of insertApprovalTask: SQL INSERT of a fresh row. -/
def insertApprovalTask (rec : ApprovalTaskRow) (rows : List ApprovalTaskRow) :
    List ApprovalTaskRow :=
  rows ++ [rec]

/-- Embedding of updateApprovalTaskStatus: an unguarded UPDATE of the
status column for every row with the given id. -/
def updateApprovalTaskStatus (i : String) (s : ApprovalStatus)
    (rows : List ApprovalTaskRow) : List ApprovalTaskRow :=
  rows.map (fun r => if r.id = i then { r with status := s } else r)

/-- Status of the first table row carrying the given id. -/
def rowStatus (rows : List ApprovalTaskRow) (i : String) :
    Option ApprovalStatus :=
  (rows.find? (fun r => r.id = i)).map (fun r => r.status)

/-- Embedding of createApprovalTask (db-backed module): persist a
pending row, register the waiter with its armed expiry timer, and hand
the task id back (the decision promise resolves through the
resolutions log).  The best-effort ntfy publication carries no state. -/
def createApprovalTask (uuid : String) (now : Nat) (sessionId : String)
    (client : String) (draftJson : String) (expiresAt : Nat)
    (st : DurableApprovals) : String × DurableApprovals :=
  let record : ApprovalTaskRow :=
    { id := uuid, sessionId := sessionId, client := client
      draftJson := draftJson, createdAt := now, expiresAt := expiresAt
      status := .pending }
  (uuid,
    { st with
        rows := insertApprovalTask record st.rows
        waiters := st.waiters ++ [uuid] })

/-- Embedding of the setTimeout callback armed by createApprovalTask:
it can only run while its timer is still armed, that is while the
waiter is registered; it deregisters the waiter, stores expired, and
resolves the decision with false. -/
def fireApprovalTimer (i : String) (st : DurableApprovals) :
    DurableApprovals :=
  if i ∈ st.waiters then
    { st with
        waiters := st.waiters.filter (fun w => w ≠ i)
        rows := updateApprovalTaskStatus i .expired st.rows
        resolutions := st.resolutions ++ [(i, false)] }
  else st

/-- Embedding of resolveApproval: when a waiter is registered, clear
its timer, wake it with (status = approved), and deregister it; in
every case store the terminal status unconditionally. -/
def resolveApproval (i : String) (ts : TerminalStatus)
    (st : DurableApprovals) : DurableApprovals :=
  let st :=
    if i ∈ st.waiters then
      { st with
          waiters := st.waiters.filter (fun w => w ≠ i)
          resolutions := st.resolutions ++ [(i, decide (ts = TerminalStatus.approved))] }
    else st
  { st with rows := updateApprovalTaskStatus i ts.toStatus st.rows }

/-- Embedding of expirePendingTask: unconditional UPDATE to expired
(the sign-result activity entry it also records is not modelled
here). -/
def expirePendingTask (i : String) (st : DurableApprovals) :
    DurableApprovals :=
  { st with rows := updateApprovalTaskStatus i .expired st.rows }

/-- Embedding of scheduleExpiry: a task already past its expiry is
expired immediately; otherwise an orphan timer is armed once. -/
def scheduleExpiry (now : Nat) (st : DurableApprovals)
    (task : ApprovalTaskRow) : DurableApprovals :=
  if task.expiresAt ≤ now then expirePendingTask task.id st
  else if task.id ∈ st.orphanTimers then st
  else { st with orphanTimers := st.orphanTimers ++ [task.id] }

/-- Embedding of restorePendingApprovalTimers: read the pending
snapshot and schedule expiry for each of its tasks. -/
def restorePendingApprovalTimers (now : Nat) (st : DurableApprovals) :
    DurableApprovals :=
  (st.rows.filter (fun r => r.status = ApprovalStatus.pending)).foldl
    (scheduleExpiry now) st

/-- Operations of the durable approval manager, for trace reasoning. -/
inductive DurOp
  | create (uuid : String) (now : Nat) (sessionId : String)
      (client : String) (draftJson : String) (expiresAt : Nat)
  | timer (id : String)
  | resolve (id : String) (ts : TerminalStatus)
  | expire (id : String)
  | boot (now : Nat)

/-- One step of the durable approval manager. -/
def durStep (st : DurableApprovals) : DurOp → DurableApprovals
  | .create uuid now sessionId client draftJson expiresAt =>
    (createApprovalTask uuid now sessionId client draftJson expiresAt st).2
  | .timer i => fireApprovalTimer i st
  | .resolve i ts => resolveApproval i ts st
  | .expire i => expirePendingTask i st
  | .boot now => restorePendingApprovalTimers now st

/-- Run a list of operations from a state. -/
def durRun (st : DurableApprovals) (ops : List DurOp) : DurableApprovals :=
  ops.foldl durStep st

/-- The uuid handed to a create operation, none otherwise. -/
def DurOp.createdId : DurOp → Option String
  | .create uuid _ _ _ _ _ => some uuid
  | _ => none

/-- Number of create operations in a trace that use the given id. -/
def createCount (ops : List DurOp) (i : String) : Nat :=
  (ops.filter (fun op => op.createdId = some i)).length

/-- Number of resolutions delivered for a given task id. -/
def resCount (st : DurableApprovals) (i : String) : Nat :=
  (st.resolutions.filter (fun p => p.1 = i)).length

/-! Sign-request handler (requestHandlerFactory.onSignEvent in
src/api/provider.ts), in the configuration the daemon builds it with:
no interactive prompter. -/

/-- Embedding of formatPubkey from src/api/key-store.ts.  The nip19
npub encoding is an external cryptographic codec (out of the core's
scope per the spec); keys are opaque strings here and the encoding is
modelled as the identity, matching the source's fall-through on
failure. -/
def formatPubkey (pubkey : String) : String := pubkey

/-- Embedding of describeEvent: short human summary of a draft. -/
def describeEvent (draft : EventTemplate) : String :=
  let preview :=
    if 120 < draft.content.length then
      String.mk (draft.content.data.take 120) ++ "…"
    else draft.content
  "kind=" ++ toString draft.kind ++ " tags=" ++ toString draft.tagCount ++
    " content=\"" ++ preview ++ "\""

/-- Outcome of the onSignEvent handler: an immediate boolean reply, a
suspension awaiting the decision of a pending approval, or a thrown
JavaScript exception propagating to the caller. -/
inductive SignOutcome
  | replied (approved : Bool)
  | suspended (taskId : String)
  | threw (msg : String)
deriving DecidableEq, Repr

/-- Combined daemon approval/activity state threaded through the
signing pipeline.  The durable manager is part of the daemon state but
the pipeline as shipped only touches the in-memory store. -/
structure DaemonApprovalState where
  mem : MemApprovals
  durable : DurableApprovals
  activity : List ActivityEntry
deriving DecidableEq, Repr

/-- Embedding of requestHandlerFactory.onSignEvent as the daemon wires
it (src/server.ts builds the provider with no prompter; onActivity is
handleProviderActivity, which records sign-request and sign-decision
activity entries).  The policy evaluate call is not wrapped in any
try/catch: an evaluation exception propagates as a threw outcome.  On
REFER the handler registers an in-memory pending approval and suspends
on its decision promise. -/
def onSignEvent (autoApprove : Bool) (policy : SigningTemplate)
    (session : SessionSummary) (sessionLabel : Option String)
    (draft : EventTemplate) (client : String)
    (uuidReq uuidDec uuidTask : String) (now : Nat)
    (st : DaemonApprovalState) : SignOutcome × DaemonApprovalState :=
  let description := formatPubkey client ++ " " ++ describeEvent draft
  let st := { st with
    activity := recordActivity uuidReq now
      { sessionId := some session.id, sessionLabel := sessionLabel
        type := "sign-request", summary := description
        client := some client, timestamp := none } st.activity }
  match policy.evaluate { event := draft, client := client, session := session } with
  | .error msg => (.threw msg, st)
  | .ok d =>
    match d with
    | .SIGN =>
      if autoApprove then
        (.replied true,
          { st with
              activity := recordActivity uuidDec now
                { sessionId := some session.id, sessionLabel := sessionLabel
                  type := "sign-result"
                  summary := "Approved " ++ description
                  client := some client, timestamp := none } st.activity })
      else (.threw "Prompt requested but none available", st)
    | .REFER =>
      let (taskId, mem) := createPendingApproval uuidTask now session.id
        session.aliasName client description draft policy.id policy.label st.mem
      (.suspended taskId, { st with mem := mem })
    | .REJECT =>
      (.replied false,
        { st with
            activity := recordActivity uuidDec now
              { sessionId := some session.id, sessionLabel := sessionLabel
                type := "sign-result"
                summary := "Rejected " ++ description
                client := some client, timestamp := none } st.activity })

/-! Session manager and control plane (src/server.ts, src/api/db.ts,
src/api/ipc.ts). -/

/-- Session type column. -/
inductive SessionType
  | bunker
  | nostrConnect
deriving DecidableEq, Repr

/-- Session status column. -/
inductive SessionStatus
  | waiting
  | connected
deriving DecidableEq, Repr

/-- A SessionRecord as persisted in the sessions table (src/api/db.ts). -/
structure SessionRow where
  id : String
  type : SessionType
  keyId : String
  aliasName : String
  relays : List String
  secret : Option String
  uri : Option String
  autoApprove : Bool
  status : SessionStatus
  lastClient : Option String
  createdAt : Nat
  updatedAt : Nat
  active : Bool
  template : String
deriving DecidableEq, Repr

/-- Runtime session entry of the in-memory runtimes map: the record
copy and the mutable policy reference of src/server.ts. -/
structure RuntimeEntry where
  record : SessionRow
  policyRefCurrent : SigningTemplate

/-- Daemon server state: the sessions table, the runtimes map, the
in-memory pending approvals, the activity log, and the log of sessions
whose runtime provider received a stop() call. -/
structure ServerState where
  sessions : List SessionRow
  runtimes : List (String × RuntimeEntry)
  mem : MemApprovals
  activity : List ActivityEntry
  stoppedProviders : List String

/-- Control-plane reply, reduced to the ok flag and error message. -/
inductive IPCResult
  | ok
  | err (msg : String)
deriving DecidableEq, Repr

/-- Embedding of createSessionRecord for a bunker start with the fields
startBunkerSession passes: status starts waiting, no last client,
active true, timestamps now, template resolved through the registry
(the session-start activity entry is appended by the caller path and
not needed by the verified claims). -/
def createBunkerRecord (sessionId keyId aliasName : String)
    (relays : List String) (secret : Option String) (autoApprove : Bool)
    (template : Option String) (now : Nat) : SessionRow :=
  { id := sessionId, type := .bunker, keyId := keyId
    aliasName := aliasName, relays := relays, secret := secret
    uri := none, autoApprove := autoApprove, status := .waiting
    lastClient := none, createdAt := now, updatedAt := now
    active := true, template := (getTemplateById template).id }

/-- Embedding of markBunkerClientConnected as it affects the session
record and its persisted row (updateSessionStatus writes the same
status, last_client, updated_at and active values). -/
def markBunkerClientConnected (client : String) (now : Nat)
    (r : SessionRow) : SessionRow :=
  { r with status := .connected, lastClient := some client
           updatedAt := now, active := true }

/-- Record-level events that can touch a running bunker session's
record after creation, absent any resume data: the advertised-URI
write of registerSessionRuntime, a rename, a policy update, and the
first client connection. -/
inductive BunkerEvent
  | clientConnected (client : String) (now : Nat)
  | setUri (uri : String) (now : Nat)
  | rename (aliasName : String)
  | setTemplate (templateId : String) (now : Nat)

/-- Effect of one bunker-session event on the record. -/
def bunkerStep (r : SessionRow) : BunkerEvent → SessionRow
  | .clientConnected client now => markBunkerClientConnected client now r
  | .setUri uri now => { r with uri := some uri, updatedAt := now }
  | .rename aliasName => { r with aliasName := aliasName }
  | .setTemplate templateId now =>
    { r with template := (getSigningTemplate templateId).id, updatedAt := now }

/-- Run a list of bunker-session events over a record. -/
def runBunker (r : SessionRow) (evs : List BunkerEvent) : SessionRow :=
  evs.foldl bunkerStep r

/-- Embedding of stopSession from src/server.ts: look the record up,
stop and drop the runtime if one is registered, reject the session's
pending approvals, deactivate the row, log the stop when the record
exists, and delete the row when remove is set.  The reply is ok in
every case.  The await of runtime.provider.stop() is recorded in the
stoppedProviders log before the runtime entry is removed. -/
def stopSession (sessionId : String) (remove : Bool) (uuid : String)
    (now : Nat) (st : ServerState) : IPCResult × ServerState :=
  let record := st.sessions.find? (fun r => r.id = sessionId)
  let st : ServerState :=
    match st.runtimes.find? (fun p => p.1 = sessionId) with
    | some _ =>
      { st with
        runtimes := st.runtimes.filter (fun p => p.1 ≠ sessionId)
        stoppedProviders := st.stoppedProviders ++ [sessionId] }
    | none => st
  let st : ServerState := { st with mem := rejectApprovalsForSession sessionId st.mem }
  let st : ServerState := { st with
    sessions := st.sessions.map (fun r =>
      if r.id = sessionId then { r with active := false, updatedAt := now } else r) }
  let st : ServerState :=
    match record with
    | some r =>
      { st with
        activity := recordActivity uuid now
          { sessionId := some r.id
            sessionLabel := some (if r.aliasName = "" then r.id else r.aliasName)
            type := "session-stop"
            summary := (if r.aliasName = "" then r.id else r.aliasName) ++
              (if remove then " deleted" else " stopped")
            client := none, timestamp := none } st.activity }
    | none => st
  let st : ServerState :=
    if remove then
      { st with sessions := st.sessions.filter (fun r => r.id ≠ sessionId) }
    else st
  (.ok, st)

/-- Embedding of updateSessionTemplateRequest from src/server.ts: a
missing session replies with the Session-not-found error and changes
nothing; otherwise the template id is resolved through the registry
(silently falling back to the default for unknown ids), written to the
persisted record, and swapped into the runtime's policy reference. -/
def updateSessionTemplateRequest (sessionId templateId : String)
    (uuid : String) (now : Nat) (st : ServerState) :
    IPCResult × ServerState :=
  match st.sessions.find? (fun r => r.id = sessionId) with
  | none => (.err "Session not found", st)
  | some record =>
    let template := getTemplateById (some templateId)
    let record := { record with template := template.id, updatedAt := now }
    let st : ServerState := { st with
      sessions := st.sessions.map (fun r => if r.id = sessionId then record else r) }
    let st : ServerState := { st with
      runtimes := st.runtimes.map (fun p =>
        if p.1 = sessionId then
          (p.1, { p.2 with
            policyRefCurrent := template
            record := { p.2.record with template := template.id } })
        else p) }
    let st : ServerState := { st with
      activity := recordActivity uuid now
        { sessionId := some record.id
          sessionLabel := some (if record.aliasName = "" then record.id else record.aliasName)
          type := "session-update"
          summary := "Updated signing policy to " ++ template.label
          client := none, timestamp := none } st.activity }
    (.ok, st)

/-- The parsed JSON payload of a resolve-approval control request; all
fields are optional because an absent JSON field reads as undefined. -/
structure ResolveApprovalWire where
  id : Option String
  decision : Option String
  approvalId : Option String
  approved : Option Bool
deriving DecidableEq, Repr

/-- The wire shape the client-side type ResolveApprovalRequest in
src/api/ipc.ts declares: fields id and decision only. -/
def mkResolveApprovalRequest (taskId decision : String) :
    ResolveApprovalWire :=
  { id := some taskId, decision := some decision
    approvalId := none, approved := none }

/-- Embedding of the resolve-approval case of handleRequest in
src/server.ts: it dereferences req.approvalId and req.approved (an
absent approved field reaches the resolver as a falsy undefined) and
replies Approval-not-found when no waiter matched. -/
def handleResolveApproval (req : ResolveApprovalWire)
    (st : MemApprovals) : IPCResult × MemApprovals :=
  let res := resolvePendingApproval req.approvalId (req.approved.getD false) st
  if res.1 then (.ok, res.2) else (.err "Approval not found", res.2)

/-- Freshness of one operation: a create must use a uuid that is not a
currently waiting task id (randomUUID never collides in practice). -/
def freshForB (op : DurOp) (st : DurableApprovals) : Bool :=
  match op with
  | .create uuid _ _ _ _ _ => decide (uuid ∉ st.waiters)
  | _ => true

/-- Well-formedness of an operation trace from a given state: every
create along the way uses a fresh uuid. -/
def wfFromB (st : DurableApprovals) : List DurOp → Bool
  | [] => true
  | op :: ops => freshForB op st && wfFromB (durStep st op) ops

/-! Concrete inputs used by counterexamples and witnesses. -/

/-- A registry-shaped policy whose evaluate function throws. -/
def throwingPolicy : SigningTemplate where
  id := "boom_policy"
  label := "Boom"
  description := "Throws on every evaluation."
  evaluate := fun _ => .error "boom"

/-- A concrete session summary. -/
def cexSession : SessionSummary :=
  { id := "s1", aliasName := some "alias", type := "bunker" }

/-- A concrete kind-1 draft event. -/
def cexDraft : EventTemplate := { kind := 1, content := "hi", tagCount := 0 }

/-- A fresh combined approval state. -/
def cexState0 : DaemonApprovalState :=
  { mem := MemApprovals.empty, durable := DurableApprovals.empty
    activity := [] }

/-- An in-memory approvals state with one pending task t1 of session s1. -/
def cexMem : MemApprovals :=
  { approvals := [{ id := "t1", sessionId := "s1", sessionLabel := none
                    client := "c", description := "d", draft := cexDraft
                    policyId := "p", policyLabel := "P", createdAt := 5 }]
    resolutions := [] }

/-- A persisted session row using the login_and_publish template. -/
def cexRow : SessionRow :=
  { id := "s1", type := .bunker, keyId := "k", aliasName := "a"
    relays := ["wss://nos.lol"], secret := some "sec", uri := none
    autoApprove := true, status := .waiting, lastClient := none
    createdAt := 1, updatedAt := 1, active := true
    template := "login_and_publish" }

/-- A server state holding cexRow with a matching runtime entry. -/
def cexServer : ServerState :=
  { sessions := [cexRow]
    runtimes := [("s1", { record := cexRow, policyRefCurrent := loginAndPublish })]
    mem := cexMem
    activity := []
    stoppedProviders := [] }

/-! Helper lemmas. -/

/-- Cleaning a blank relay entry yields the empty string. -/
theorem cleanupRelay_of_trim_empty {s : String} (h : trimStr s = "") :
    cleanupRelay s = "" := by
  unfold cleanupRelay
  rw [h]
  rfl

/-- Mapping cleanupRelay over an all-blank list and filtering the blank
results leaves nothing. -/
theorem blank_map_filter_nil (l : List String)
    (h : ∀ s ∈ l, trimStr s = "") :
    (l.map cleanupRelay).filter (fun s => s ≠ "") = [] := by
  rw [List.filter_eq_nil_iff]
  intro a ha
  obtain ⟨s, hs, rfl⟩ := List.mem_map.mp ha
  simp [cleanupRelay_of_trim_empty (h s hs)]

/-- C10: normalizeRelays silently substitutes the built-in default
relay list for an undefined or empty input list, while an originally
non-empty list whose entries are all blank after trimming yields an
empty result. -/
theorem C10_default_relays_substitution :
    normalizeRelays none = DEFAULT_RELAYS ∧
    normalizeRelays (some []) = DEFAULT_RELAYS ∧
    ∀ l : List String, l ≠ [] → (∀ s ∈ l, trimStr s = "") →
      normalizeRelays (some l) = [] := by
  refine ⟨by decide, by decide, ?_⟩
  intro l hne hbl
  match l, hne with
  | a :: as, _ =>
    unfold normalizeRelays
    simp only [List.isEmpty_cons, Bool.false_eq_true, if_false]
    rw [blank_map_filter_nil _ hbl]
    rfl

/-- C10 witness: a concrete all-blank singleton list. -/
theorem C10_witness :
    ([" "] : List String) ≠ [] ∧ (∀ s ∈ ([" "] : List String), trimStr s = "") ∧
      normalizeRelays (some [" "]) = [] :=
  ⟨by decide, by decide,
    C10_default_relays_substitution.2.2 [" "] (by decide) (by decide)⟩

/-- C9: the activity log caps at 200 entries, inserts the stamped
entry at the front, drops the oldest from the back when the cap is
exceeded, stamps the uuid and epoch-ms timestamp unless a timestamp
was supplied, and list returns the buffer newest-first. -/
theorem C9_activity_log_bounded (uuid : String) (now : Nat)
    (entry : ActivityInput) (logState : List ActivityEntry)
    (h : logState.length ≤ MAX_LOG_ENTRIES) :
    (recordActivity uuid now entry logState).length ≤ MAX_LOG_ENTRIES ∧
    (recordActivity uuid now entry logState).head? =
      some (enrichActivity uuid now entry) ∧
    (enrichActivity uuid now entry).id = uuid ∧
    (enrichActivity uuid now entry).timestamp = entry.timestamp.getD now ∧
    (logState.length < MAX_LOG_ENTRIES →
      recordActivity uuid now entry logState =
        enrichActivity uuid now entry :: logState) ∧
    (logState.length = MAX_LOG_ENTRIES →
      recordActivity uuid now entry logState =
        (enrichActivity uuid now entry :: logState).dropLast) ∧
    listActivity (recordActivity uuid now entry logState) =
      recordActivity uuid now entry logState := by
  by_cases hlt : logState.length < MAX_LOG_ENTRIES
  · have hrec : recordActivity uuid now entry logState =
        enrichActivity uuid now entry :: logState := by
      unfold recordActivity
      exact if_neg (by simp only [List.length_cons]; omega)
    rw [hrec]
    unfold listActivity
    refine ⟨?_, rfl, rfl, rfl, fun _ => rfl,
      fun heq => absurd heq (by omega), rfl⟩
    simp only [List.length_cons]
    omega
  · have heq : logState.length = MAX_LOG_ENTRIES := le_antisymm h (le_of_not_lt hlt)
    have hrec : recordActivity uuid now entry logState =
        (enrichActivity uuid now entry :: logState).dropLast := by
      unfold recordActivity
      exact if_pos (by simp only [List.length_cons]; omega)
    rw [hrec]
    unfold listActivity
    have hne : logState ≠ [] := by
      intro hnil
      rw [hnil] at heq
      simp [MAX_LOG_ENTRIES] at heq
    refine ⟨?_, ?_, rfl, rfl, fun hlt2 => absurd hlt2 hlt, fun _ => rfl, rfl⟩
    · simp only [List.length_dropLast, List.length_cons]
      omega
    · match logState, hne with
      | b :: bs, _ => rfl

/-- C9 witness: recording into an empty buffer. -/
theorem C9_witness :
    ([] : List ActivityEntry).length ≤ MAX_LOG_ENTRIES ∧
    recordActivity "u" 7
        { sessionId := none, sessionLabel := none, type := "sign-request"
          summary := "s", client := none, timestamp := none } [] =
      [enrichActivity "u" 7
        { sessionId := none, sessionLabel := none, type := "sign-request"
          summary := "s", client := none, timestamp := none }] :=
  ⟨by decide,
    (C9_activity_log_bounded "u" 7
      { sessionId := none, sessionLabel := none, type := "sign-request"
        summary := "s", client := none, timestamp := none } []
      (by decide)).2.2.2.2.1 (by decide)⟩

/-- C2: the daemon never honours a resolve-approval request of the
declared wire shape with fields id and decision; it dereferences the
absent approvalId field and replies Approval-not-found, leaving the
pending approval untouched, as evaluated on an arbitrary state and on
a concrete state holding the pending task t1 the request names. -/
theorem C2_resolve_approval_id_decision_rejected (taskId decision : String)
    (st : MemApprovals) :
    handleResolveApproval (mkResolveApprovalRequest taskId decision) st =
      (.err "Approval not found", st) ∧
    handleResolveApproval (mkResolveApprovalRequest "t1" "approve") cexMem =
      (.err "Approval not found", cexMem) ∧
    cexMem.approvals.map (fun a => a.id) = ["t1"] :=
  ⟨rfl, by decide, by decide⟩

/-- C1 counterexample: a policy whose evaluate throws makes onSignEvent
itself throw; the exception is not caught and no deny reply is
produced. -/
theorem C1_counterexample_evaluate_exception_not_caught :
    (onSignEvent true throwingPolicy cexSession (some "alias") cexDraft "c"
        "u1" "u2" "u3" 1000 cexState0).1 = .threw "boom" ∧
    (onSignEvent true throwingPolicy cexSession (some "alias") cexDraft "c"
        "u1" "u2" "u3" 1000 cexState0).1 ≠ .replied false := by
  exact ⟨by decide, by decide⟩

/-- C1 (amended): an exception thrown by the session policy's evaluate
function propagates out of onSignEvent uncaught: the handler rethrows
after recording only the sign-request activity entry, produces no deny
reply, records no sign-result, and registers no approval. -/
theorem C1_amended_evaluate_exception_propagates (autoApprove : Bool)
    (policy : SigningTemplate) (session : SessionSummary)
    (sessionLabel : Option String) (draft : EventTemplate) (client : String)
    (uuidReq uuidDec uuidTask : String) (now : Nat)
    (st : DaemonApprovalState) (msg : String)
    (h : policy.evaluate { event := draft, client := client, session := session } =
      .error msg) :
    onSignEvent autoApprove policy session sessionLabel draft client
        uuidReq uuidDec uuidTask now st =
      (.threw msg,
        { st with
            activity := recordActivity uuidReq now
              { sessionId := some session.id, sessionLabel := sessionLabel
                type := "sign-request"
                summary := formatPubkey client ++ " " ++ describeEvent draft
                client := some client, timestamp := none } st.activity }) := by
  unfold onSignEvent
  rw [h]

/-- C1 witness: the amended theorem applied to the throwing policy. -/
theorem C1_amended_witness :
    onSignEvent true throwingPolicy cexSession (some "alias") cexDraft "c"
        "u1" "u2" "u3" 1000 cexState0 =
      (.threw "boom",
        { cexState0 with
            activity := recordActivity "u1" 1000
              { sessionId := some cexSession.id, sessionLabel := some "alias"
                type := "sign-request"
                summary := formatPubkey "c" ++ " " ++ describeEvent cexDraft
                client := some "c", timestamp := none } cexState0.activity }) :=
  C1_amended_evaluate_exception_propagates true throwingPolicy cexSession
    (some "alias") cexDraft "c" "u1" "u2" "u3" 1000 cexState0 "boom" rfl

/-- Every bunker-session event preserves the connected-implies-client
invariant of the record. -/
theorem bunkerStep_inv (r : SessionRow) (ev : BunkerEvent)
    (h : r.status = .connected → r.lastClient ≠ none) :
    (bunkerStep r ev).status = .connected →
      (bunkerStep r ev).lastClient ≠ none := by
  cases ev with
  | clientConnected client now => intro _; simp [bunkerStep, markBunkerClientConnected]
  | setUri uri now => exact h
  | rename aliasName => exact h
  | setTemplate templateId now => exact h

/-- Runs of bunker-session events preserve the connected-implies-client
invariant. -/
theorem runBunker_inv (evs : List BunkerEvent) (r : SessionRow)
    (h : r.status = .connected → r.lastClient ≠ none) :
    (runBunker r evs).status = .connected →
      (runBunker r evs).lastClient ≠ none := by
  induction evs generalizing r with
  | nil => exact h
  | cons ev evs ih => exact ih (bunkerStep r ev) (bunkerStep_inv r ev h)

/-- C8: a bunker session record starts waiting with no last client;
the first completed pairing transitions it to connected and sets the
peer as last client; and along any run of record events from that
start, status connected always implies a last client is set. -/
theorem C8_bunker_connected_implies_last_client
    (sessionId keyId aliasName : String) (relays : List String)
    (secret : Option String) (autoApprove : Bool)
    (template : Option String) (now : Nat) :
    (createBunkerRecord sessionId keyId aliasName relays secret autoApprove
        template now).status = .waiting ∧
    (createBunkerRecord sessionId keyId aliasName relays secret autoApprove
        template now).lastClient = none ∧
    (∀ r : SessionRow, ∀ client : String, ∀ t : Nat,
      (bunkerStep r (.clientConnected client t)).status = .connected ∧
      (bunkerStep r (.clientConnected client t)).lastClient = some client) ∧
    (∀ evs : List BunkerEvent,
      (runBunker (createBunkerRecord sessionId keyId aliasName relays secret
          autoApprove template now) evs).status = .connected →
        (runBunker (createBunkerRecord sessionId keyId aliasName relays secret
          autoApprove template now) evs).lastClient ≠ none) := by
  refine ⟨rfl, rfl, fun r client t => ⟨rfl, rfl⟩, fun evs => ?_⟩
  exact runBunker_inv evs _ (by intro hc; simp [createBunkerRecord] at hc)

/-- C8 witness: a concrete bunker start followed by a first client
connection. -/
theorem C8_witness :
    (runBunker (createBunkerRecord "s1" "k1" "a" ["wss://nos.lol"]
        (some "sec") true none 1)
      [BunkerEvent.setUri "bunker://x" 2,
       BunkerEvent.clientConnected "clientpk" 3]).lastClient ≠ none :=
  (C8_bunker_connected_implies_last_client "s1" "k1" "a" ["wss://nos.lol"]
      (some "sec") true none 1).2.2.2
    [BunkerEvent.setUri "bunker://x" 2, BunkerEvent.clientConnected "clientpk" 3]
    (by decide)

/-- C6 counterexample: updating session s1 (template login_and_publish)
to the unknown template id nope succeeds with ok and silently rewrites
both the persisted template and the runtime policy reference to the
default auto_sign, instead of returning an UnknownPolicy error and
leaving them unchanged. -/
theorem C6_counterexample_unknown_template_silently_defaults :
    (updateSessionTemplateRequest "s1" "nope" "u" 2 cexServer).1 = .ok ∧
    ((updateSessionTemplateRequest "s1" "nope" "u" 2 cexServer).2.sessions.map
      (fun r => r.template)) = ["auto_sign"] ∧
    ((updateSessionTemplateRequest "s1" "nope" "u" 2 cexServer).2.runtimes.map
      (fun p => p.2.policyRefCurrent.id)) = ["auto_sign"] ∧
    cexRow.template = "login_and_publish" ∧
    (templates.map (fun t => t.id)).contains "nope" = false := by
  refine ⟨rfl, by decide, by decide, by decide, by decide⟩

/-- C6 (amended): update-session-template on a missing session replies
Session-not-found and changes nothing; on an existing session it
replies ok and resolves the template id through the registry with a
silent fallback to the default for unknown ids, writing the resolved
template to the persisted record and swapping the runtime policy
reference so the next inbound request evaluates it. -/
theorem C6_amended_update_template (sessionId templateId uuid : String)
    (now : Nat) (st : ServerState) :
    (st.sessions.find? (fun r => r.id = sessionId) = none →
      updateSessionTemplateRequest sessionId templateId uuid now st =
        (.err "Session not found", st)) ∧
    ((st.sessions.find? (fun r => r.id = sessionId)).isSome →
      (updateSessionTemplateRequest sessionId templateId uuid now st).1 = .ok ∧
      (∀ r ∈ (updateSessionTemplateRequest sessionId templateId uuid now st).2.sessions,
        r.id = sessionId → r.template = (getSigningTemplate templateId).id) ∧
      (∀ p ∈ (updateSessionTemplateRequest sessionId templateId uuid now st).2.runtimes,
        p.1 = sessionId → p.2.policyRefCurrent = getSigningTemplate templateId)) := by
  constructor
  · intro hnone
    unfold updateSessionTemplateRequest
    rw [hnone]
  · intro hsome
    obtain ⟨record, hrec⟩ := Option.isSome_iff_exists.mp hsome
    have hbody :
        updateSessionTemplateRequest sessionId templateId uuid now st =
          (let template := getTemplateById (some templateId)
           let record := { record with template := template.id, updatedAt := now }
           let st : ServerState := { st with
             sessions := st.sessions.map (fun r => if r.id = sessionId then record else r) }
           let st : ServerState := { st with
             runtimes := st.runtimes.map (fun p =>
               if p.1 = sessionId then
                 (p.1, { p.2 with
                   policyRefCurrent := template
                   record := { p.2.record with template := template.id } })
               else p) }
           let st : ServerState := { st with
             activity := recordActivity uuid now
               { sessionId := some record.id
                 sessionLabel := some (if record.aliasName = "" then record.id else record.aliasName)
                 type := "session-update"
                 summary := "Updated signing policy to " ++ template.label
                 client := none, timestamp := none } st.activity }
           (.ok, st)) := by
      unfold updateSessionTemplateRequest
      rw [hrec]
    rw [hbody]
    refine ⟨rfl, ?_, ?_⟩
    · intro r hr hid
      obtain ⟨r0, _, hif⟩ := List.mem_map.mp hr
      by_cases h0 : r0.id = sessionId
      · rw [if_pos h0] at hif
        rw [← hif]
        rfl
      · rw [if_neg h0] at hif
        rw [← hif] at hid
        exact absurd hid h0
    · intro p hp hid
      obtain ⟨p0, _, hif⟩ := List.mem_map.mp hp
      by_cases h0 : p0.1 = sessionId
      · rw [if_pos h0] at hif
        rw [← hif]
        rfl
      · rw [if_neg h0] at hif
        rw [← hif] at hid
        exact absurd hid h0

/-- C6 witness: updating the concrete session to the known template
online_login writes online_login and returns ok. -/
theorem C6_witness :
    (updateSessionTemplateRequest "s1" "online_login" "u" 2 cexServer).1 = .ok ∧
    (∀ r ∈ (updateSessionTemplateRequest "s1" "online_login" "u" 2 cexServer).2.sessions,
      r.id = "s1" → r.template = (getSigningTemplate "online_login").id) :=
  ⟨((C6_amended_update_template "s1" "online_login" "u" 2 cexServer).2 (by decide)).1,
    ((C6_amended_update_template "s1" "online_login" "u" 2 cexServer).2 (by decide)).2.1⟩

/-- Deduplication only returns elements of the input. -/
theorem jsDedupAux_subset (l : List String) :
    ∀ seen e, e ∈ jsDedupAux seen l → e ∈ l := by
  induction l with
  | nil => intro seen e h; simp [jsDedupAux] at h
  | cons x xs ih =>
    intro seen e h
    unfold jsDedupAux at h
    by_cases hx : x ∈ seen
    · rw [if_pos hx] at h
      exact List.mem_cons_of_mem x (ih seen e h)
    · rw [if_neg hx] at h
      rcases List.mem_cons.mp h with heq | hmem
      · exact heq ▸ List.mem_cons_self x xs
      · exact List.mem_cons_of_mem x (ih (x :: seen) e hmem)

/-- Deduplication yields a duplicate-free list avoiding the seen set. -/
theorem jsDedupAux_nodup (l : List String) :
    ∀ seen, (jsDedupAux seen l).Nodup ∧ ∀ e ∈ jsDedupAux seen l, e ∉ seen := by
  induction l with
  | nil => intro seen; exact ⟨List.nodup_nil, by simp [jsDedupAux]⟩
  | cons x xs ih =>
    intro seen
    unfold jsDedupAux
    by_cases hx : x ∈ seen
    · rw [if_pos hx]
      exact ih seen
    · rw [if_neg hx]
      obtain ⟨hnd, havoid⟩ := ih (x :: seen)
      refine ⟨List.nodup_cons.mpr ⟨fun hmem => ?_, hnd⟩, ?_⟩
      · exact havoid x hmem (List.mem_cons_self x seen)
      · intro e he
        rcases List.mem_cons.mp he with heq | hmem
        · exact heq ▸ hx
        · exact fun hseen => havoid e hmem (List.mem_cons_of_mem x hseen)

/-- Deduplication is the identity on duplicate-free lists disjoint from
the seen set. -/
theorem jsDedupAux_eq_self (l : List String) :
    ∀ seen, l.Nodup → (∀ e ∈ l, e ∉ seen) → jsDedupAux seen l = l := by
  induction l with
  | nil => intro seen _ _; rfl
  | cons x xs ih =>
    intro seen hnd havoid
    unfold jsDedupAux
    rw [if_neg (havoid x (List.mem_cons_self x xs))]
    obtain ⟨hx, hxs⟩ := List.nodup_cons.mp hnd
    congr 1
    refine ih (x :: seen) hxs fun e he hmem => ?_
    rcases List.mem_cons.mp hmem with heq | hseen
    · exact hx (heq ▸ he)
    · exact havoid e (List.mem_cons_of_mem x he) hseen

/-- The head surviving dropWhile falsifies the predicate. -/
theorem head?_dropWhile_false {α : Type} (p : α → Bool) (l : List α) :
    ∀ a, (l.dropWhile p).head? = some a → p a = false := by
  induction l with
  | nil => intro a h; simp [List.dropWhile] at h
  | cons c cs ih =>
    intro a h
    rw [List.dropWhile_cons] at h
    by_cases hc : p c = true
    · rw [if_pos hc] at h
      exact ih a h
    · rw [if_neg hc] at h
      simp only [List.head?_cons, Option.some.injEq] at h
      rw [← h]
      exact Bool.eq_false_iff.mpr hc

/-- A cleaned relay entry never ends in a slash. -/
theorem cleanupRelay_getLast (u : String) :
    (cleanupRelay u).data.getLast? ≠ some '/' := by
  unfold cleanupRelay
  by_cases h : trimStr u = ""
  · rw [if_pos h]
    intro hcontra
    simp at hcontra
  · rw [if_neg h]
    intro hcontra
    unfold stripTrailingSlashes at hcontra
    rw [List.getLast?_reverse] at hcontra
    have := head?_dropWhile_false (fun c => decide (c = '/')) _ _ hcontra
    simp at this

/-- Cleaning is the identity on a trimmed, nonempty, scheme-prefixed
entry with no trailing slash. -/
theorem cleanupRelay_id (e : String) (htrim : trimStr e = e) (hne : e ≠ "")
    (hws : hasWsScheme e = true) (hlast : e.data.getLast? ≠ some '/') :
    cleanupRelay e = e := by
  unfold cleanupRelay
  rw [htrim, if_neg hne, if_pos hws]
  unfold stripTrailingSlashes
  have hdata : e.data ≠ [] := by
    intro hnil
    apply hne
    apply String.ext
    simpa using hnil
  have hrev : e.data.reverse ≠ [] := by
    intro hnil
    apply hdata
    have := congrArg List.reverse hnil
    simpa using this
  show String.mk ((e.data.reverse.dropWhile (fun c => decide (c = '/'))).reverse) = e
  match hm : e.data.reverse, hrev with
  | c :: cs, _ =>
    have hc : c ≠ '/' := by
      intro hcEq
      apply hlast
      rw [← List.head?_reverse, hm, hcEq]
      rfl
    rw [List.dropWhile_cons, if_neg (by simp [hc]), ← hm,
      List.reverse_reverse]

/-- Mapping a function that fixes every member is the identity. -/
theorem map_id_of_forall {α : Type} (f : α → α) (l : List α)
    (h : ∀ e ∈ l, f e = e) : l.map f = l := by
  induction l with
  | nil => rfl
  | cons a as ih =>
    simp only [List.map_cons, h a (List.mem_cons_self a as)]
    rw [ih fun e he => h e (List.mem_cons_of_mem a he)]

/-- On a nonempty list the default substitution of normalizeRelays is
skipped. -/
theorem normalizeRelays_some_of_ne_nil (y : List String) (h : y ≠ []) :
    normalizeRelays (some y) =
      jsDedup ((y.map cleanupRelay).filter (fun s => s ≠ "")) := by
  match y, h with
  | a :: as, _ => rfl

/-- Entries of a normalized relay list come from cleaning. -/
theorem normalizeRelays_mem (x : List String) (e : String)
    (h : e ∈ normalizeRelays (some x)) :
    e ≠ "" ∧ ∃ u, cleanupRelay u = e := by
  unfold normalizeRelays at h
  have hfil := jsDedupAux_subset _ [] e h
  obtain ⟨hmap, hpe⟩ := List.mem_filter.mp hfil
  refine ⟨by simpa using hpe, ?_⟩
  obtain ⟨u, _, hu⟩ := List.mem_map.mp hmap
  exact ⟨u, hu⟩

/-- C7 counterexample: on the input list with single entry wss:/// the
normalized result is the entry wss os wss: which fails the relay
pattern, and renormalizing changes the list, refuting idempotence and
the regex property of the claim. -/
theorem C7_counterexample_normalize_not_idempotent :
    normalizeRelays (some ["wss:///"]) = ["wss:"] ∧
    normalizeRelays (some (normalizeRelays (some ["wss:///"]))) = ["wss://wss:"] ∧
    normalizeRelays (some (normalizeRelays (some ["wss:///"]))) ≠
      normalizeRelays (some ["wss:///"]) ∧
    matchesRelayPattern "wss:" = false := by
  exact ⟨by decide, by decide, by decide, by decide⟩

/-- C7 (amended): a normalized relay list is always duplicate-free and
its entries are nonempty with no trailing slash; renormalization is the
identity provided the first result is nonempty and each of its entries
is already trimmed and carries a ws or wss scheme prefix.  Without
that proviso idempotence and the full regex pattern can fail. -/
theorem C7_amended_normalize_properties (x : List String) :
    (normalizeRelays (some x)).Nodup ∧
    (∀ e ∈ normalizeRelays (some x),
      e ≠ "" ∧ e.data.getLast? ≠ some '/') ∧
    ((normalizeRelays (some x) ≠ [] ∧
      ∀ e ∈ normalizeRelays (some x), trimStr e = e ∧ hasWsScheme e = true) →
      normalizeRelays (some (normalizeRelays (some x))) =
        normalizeRelays (some x)) := by
  refine ⟨(jsDedupAux_nodup _ []).1, ?_, ?_⟩
  · intro e he
    obtain ⟨hne, u, hu⟩ := normalizeRelays_mem x e he
    exact ⟨hne, hu ▸ cleanupRelay_getLast u⟩
  · rintro ⟨hout, hcond⟩
    have hnodup : (normalizeRelays (some x)).Nodup := (jsDedupAux_nodup _ []).1
    rw [normalizeRelays_some_of_ne_nil _ hout]
    have hmap : (normalizeRelays (some x)).map cleanupRelay =
        normalizeRelays (some x) := by
      apply map_id_of_forall
      intro e he
      obtain ⟨hne, u, hu⟩ := normalizeRelays_mem x e he
      obtain ⟨htrim, hws⟩ := hcond e he
      exact cleanupRelay_id e htrim hne hws (hu ▸ cleanupRelay_getLast u)
    rw [hmap]
    have hfil : (normalizeRelays (some x)).filter (fun s => s ≠ "") =
        normalizeRelays (some x) := by
      rw [List.filter_eq_self]
      intro a ha
      simpa using (normalizeRelays_mem x a ha).1
    rw [hfil]
    exact jsDedupAux_eq_self _ [] hnodup (by simp)

/-- C7 witness: a well-formed singleton list renormalizes to itself. -/
theorem C7_amended_witness :
    normalizeRelays (some (normalizeRelays (some ["wss://a"]))) =
      normalizeRelays (some ["wss://a"]) :=
  (C7_amended_normalize_properties ["wss://a"]).2.2 ⟨by decide, by decide⟩

/-- Rejecting a session's approvals resolves each of its pending
approvals with false and leaves no approval of the session behind. -/
theorem reject_for_session_resolves (sid : String) (m : MemApprovals) :
    (∀ a ∈ m.approvals, a.sessionId = sid →
      (a.id, false) ∈ (rejectApprovalsForSession sid m).resolutions) ∧
    (∀ a ∈ (rejectApprovalsForSession sid m).approvals, a.sessionId ≠ sid) ∧
    (∀ a ∈ m.approvals, a.sessionId ≠ sid →
      a ∈ (rejectApprovalsForSession sid m).approvals) := by
  unfold rejectApprovalsForSession
  refine ⟨?_, ?_, ?_⟩
  · intro a ha hs
    apply List.mem_append_right
    exact List.mem_map.mpr ⟨a, List.mem_filter.mpr ⟨ha, by simp [hs]⟩, rfl⟩
  · intro a ha
    simpa using (List.mem_filter.mp ha).2
  · intro a ha hs
    exact List.mem_filter.mpr ⟨ha, by simp [hs]⟩

/-- Rejecting a session's approvals is a no-op when none remain. -/
theorem reject_for_session_noop (sid : String) (m : MemApprovals)
    (h : ∀ a ∈ m.approvals, a.sessionId ≠ sid) :
    rejectApprovalsForSession sid m = m := by
  unfold rejectApprovalsForSession
  have h1 : m.approvals.filter (fun a => a.sessionId ≠ sid) = m.approvals :=
    List.filter_eq_self.mpr (fun a ha => by simpa using h a ha)
  have h2 : m.approvals.filter (fun a => a.sessionId = sid) = [] :=
    List.filter_eq_nil_iff.mpr (fun a ha => by simpa using h a ha)
  rw [h1, h2]
  simp

/-- Re-deactivating an already deactivated row changes nothing. -/
theorem sessionRow_deactivate_self (r : SessionRow) (now : Nat)
    (ha : r.active = false) (hu : r.updatedAt = now) :
    ({ r with active := false, updatedAt := now } : SessionRow) = r := by
  cases r
  simp_all

/-- The deactivation pass of stopSession, factored for reuse. -/
theorem deactivate_map_noop (sessionId : String) (now : Nat)
    (l : List SessionRow)
    (h : ∀ r ∈ l, r.id = sessionId → r.active = false ∧ r.updatedAt = now) :
    l.map (fun r => if r.id = sessionId then
        { r with active := false, updatedAt := now } else r) = l := by
  apply map_id_of_forall
  intro r hr
  by_cases hid : r.id = sessionId
  · rw [if_pos hid]
    obtain ⟨ha, hu⟩ := h r hr hid
    exact sessionRow_deactivate_self r now ha hu
  · rw [if_neg hid]

/-- Stopping a session that is already stopped (no runtime entry, no
pending approvals, row already deactivated, row absent when removing)
replies ok and leaves sessions, runtimes, approvals and provider-stop
state unchanged. -/
theorem stopSession_noop (sessionId uuid : String) (remove : Bool)
    (now : Nat) (st : ServerState)
    (h2 : ∀ p ∈ st.runtimes, p.1 ≠ sessionId)
    (h4 : ∀ a ∈ st.mem.approvals, a.sessionId ≠ sessionId)
    (h5 : ∀ r ∈ st.sessions, r.id = sessionId →
      r.active = false ∧ r.updatedAt = now)
    (h6 : remove = true → ∀ r ∈ st.sessions, r.id ≠ sessionId) :
    (stopSession sessionId remove uuid now st).1 = .ok ∧
    (stopSession sessionId remove uuid now st).2.sessions = st.sessions ∧
    (stopSession sessionId remove uuid now st).2.runtimes = st.runtimes ∧
    (stopSession sessionId remove uuid now st).2.mem = st.mem ∧
    (stopSession sessionId remove uuid now st).2.stoppedProviders =
      st.stoppedProviders := by
  have hrt : st.runtimes.find? (fun p => p.1 = sessionId) = none :=
    List.find?_eq_none.mpr (fun p hp => by simpa using h2 p hp)
  have hmem := reject_for_session_noop sessionId st.mem h4
  have hmap := deactivate_map_noop sessionId now st.sessions h5
  unfold stopSession
  rw [hrt]
  dsimp only []
  rw [hmem, hmap]
  cases hrec : st.sessions.find? (fun r => r.id = sessionId) with
  | none =>
    cases remove with
    | false => exact ⟨rfl, rfl, rfl, rfl, rfl⟩
    | true =>
      have hfil : st.sessions.filter (fun r => r.id ≠ sessionId) =
          st.sessions :=
        List.filter_eq_self.mpr (fun r hr => by simpa using h6 rfl r hr)
      exact ⟨rfl, hfil, rfl, rfl, rfl⟩
  | some r0 =>
    cases remove with
    | false => exact ⟨rfl, rfl, rfl, rfl, rfl⟩
    | true =>
      have hfil : st.sessions.filter (fun r => r.id ≠ sessionId) =
          st.sessions :=
        List.filter_eq_self.mpr (fun r hr => by simpa using h6 rfl r hr)
      exact ⟨rfl, hfil, rfl, rfl, rfl⟩

/-- C5: stopping (or deleting) a session always replies ok, resolves
every in-memory pending approval of the session with false and leaves
none behind, removes the runtime entry after stopping its provider,
deactivates the persisted row (stamping updated_at), deletes the row
when remove is set, and a second identical call is a no-op on the
sessions, runtimes, approvals and provider-stop state. -/
theorem C5_stop_session_rejects_and_deactivates (sessionId uuid : String)
    (remove : Bool) (now : Nat) (st : ServerState) :
    (stopSession sessionId remove uuid now st).1 = .ok ∧
    (∀ p ∈ (stopSession sessionId remove uuid now st).2.runtimes,
      p.1 ≠ sessionId) ∧
    (∀ a ∈ st.mem.approvals, a.sessionId = sessionId →
      (a.id, false) ∈ (stopSession sessionId remove uuid now st).2.mem.resolutions) ∧
    (∀ a ∈ (stopSession sessionId remove uuid now st).2.mem.approvals,
      a.sessionId ≠ sessionId) ∧
    (∀ r ∈ (stopSession sessionId remove uuid now st).2.sessions,
      r.id = sessionId → r.active = false ∧ r.updatedAt = now) ∧
    (remove = true →
      ∀ r ∈ (stopSession sessionId remove uuid now st).2.sessions,
        r.id ≠ sessionId) ∧
    ((st.runtimes.find? (fun p => p.1 = sessionId)).isSome →
      sessionId ∈ (stopSession sessionId remove uuid now st).2.stoppedProviders) ∧
    ((stopSession sessionId remove uuid now
        (stopSession sessionId remove uuid now st).2).1 = .ok ∧
      (stopSession sessionId remove uuid now
        (stopSession sessionId remove uuid now st).2).2.sessions =
        (stopSession sessionId remove uuid now st).2.sessions ∧
      (stopSession sessionId remove uuid now
        (stopSession sessionId remove uuid now st).2).2.runtimes =
        (stopSession sessionId remove uuid now st).2.runtimes ∧
      (stopSession sessionId remove uuid now
        (stopSession sessionId remove uuid now st).2).2.mem =
        (stopSession sessionId remove uuid now st).2.mem ∧
      (stopSession sessionId remove uuid now
        (stopSession sessionId remove uuid now st).2).2.stoppedProviders =
        (stopSession sessionId remove uuid now st).2.stoppedProviders) := by
  have hchar : ∃ act : List ActivityEntry,
      stopSession sessionId remove uuid now st =
        (.ok,
          { sessions :=
              if remove = true then
                (st.sessions.map (fun r => if r.id = sessionId then
                  { r with active := false, updatedAt := now } else r)).filter
                  (fun r => r.id ≠ sessionId)
              else
                st.sessions.map (fun r => if r.id = sessionId then
                  { r with active := false, updatedAt := now } else r)
            runtimes := st.runtimes.filter (fun p => p.1 ≠ sessionId)
            mem := rejectApprovalsForSession sessionId st.mem
            activity := act
            stoppedProviders :=
              if (st.runtimes.find? (fun p => p.1 = sessionId)).isSome then
                st.stoppedProviders ++ [sessionId]
              else st.stoppedProviders }) := by
    unfold stopSession
    cases hrt : st.runtimes.find? (fun p => p.1 = sessionId) with
    | none =>
      have hfilt : st.runtimes.filter (fun p => p.1 ≠ sessionId) =
          st.runtimes := by
        apply List.filter_eq_self.mpr
        intro p hp
        have := List.find?_eq_none.mp hrt p hp
        simpa using this
      rw [hfilt]
      cases hrec : st.sessions.find? (fun r => r.id = sessionId) with
      | none => cases remove with
        | false => exact ⟨st.activity, rfl⟩
        | true => exact ⟨st.activity, rfl⟩
      | some r0 => cases remove with
        | false => exact ⟨_, rfl⟩
        | true => exact ⟨_, rfl⟩
    | some q =>
      cases hrec : st.sessions.find? (fun r => r.id = sessionId) with
      | none => cases remove with
        | false => exact ⟨st.activity, rfl⟩
        | true => exact ⟨st.activity, rfl⟩
      | some r0 => cases remove with
        | false => exact ⟨_, rfl⟩
        | true => exact ⟨_, rfl⟩
  obtain ⟨act, hchar⟩ := hchar
  have hc1 : (stopSession sessionId remove uuid now st).1 = .ok := by
    rw [hchar]
  have hc2 : ∀ p ∈ (stopSession sessionId remove uuid now st).2.runtimes,
      p.1 ≠ sessionId := by
    rw [hchar]
    intro p hp
    simpa using (List.mem_filter.mp hp).2
  have hc3 : ∀ a ∈ st.mem.approvals, a.sessionId = sessionId →
      (a.id, false) ∈ (stopSession sessionId remove uuid now st).2.mem.resolutions := by
    rw [hchar]
    exact (reject_for_session_resolves sessionId st.mem).1
  have hc4 : ∀ a ∈ (stopSession sessionId remove uuid now st).2.mem.approvals,
      a.sessionId ≠ sessionId := by
    rw [hchar]
    exact (reject_for_session_resolves sessionId st.mem).2.1
  have hc5 : ∀ r ∈ (stopSession sessionId remove uuid now st).2.sessions,
      r.id = sessionId → r.active = false ∧ r.updatedAt = now := by
    rw [hchar]
    intro r hr hid
    cases remove with
    | true =>
      have hr' : r ∈ (st.sessions.map (fun r => if r.id = sessionId then
          { r with active := false, updatedAt := now } else r)).filter
            (fun r => r.id ≠ sessionId) := hr
      exact absurd hid (by simpa using (List.mem_filter.mp hr').2)
    | false =>
      have hr' : r ∈ st.sessions.map (fun r => if r.id = sessionId then
          { r with active := false, updatedAt := now } else r) := hr
      obtain ⟨r0, _, hif⟩ := List.mem_map.mp hr'
      by_cases h0 : r0.id = sessionId
      · rw [if_pos h0] at hif
        rw [← hif]
        exact ⟨rfl, rfl⟩
      · rw [if_neg h0] at hif
        rw [← hif] at hid
        exact absurd hid h0
  have hc6 : remove = true →
      ∀ r ∈ (stopSession sessionId remove uuid now st).2.sessions,
        r.id ≠ sessionId := by
    rw [hchar]
    intro hrem r hr
    subst hrem
    have hr' : r ∈ (st.sessions.map (fun r => if r.id = sessionId then
        { r with active := false, updatedAt := now } else r)).filter
          (fun r => r.id ≠ sessionId) := hr
    simpa using (List.mem_filter.mp hr').2
  have hc7 : (st.runtimes.find? (fun p => p.1 = sessionId)).isSome →
      sessionId ∈ (stopSession sessionId remove uuid now st).2.stoppedProviders := by
    rw [hchar]
    intro hsome
    show sessionId ∈
      (if (st.runtimes.find? (fun p => p.1 = sessionId)).isSome = true then
        st.stoppedProviders ++ [sessionId]
      else st.stoppedProviders)
    rw [if_pos hsome]
    exact List.mem_append_right _ (List.mem_singleton.mpr rfl)
  exact ⟨hc1, hc2, hc3, hc4, hc5, hc6, hc7,
    stopSession_noop sessionId uuid remove now
      (stopSession sessionId remove uuid now st).2 hc2 hc4 hc5 hc6⟩

/-- C5 witness: stopping the concrete server state replies ok and
resolves its pending approval t1 with false. -/
theorem C5_witness :
    (stopSession "s1" false "u" 9 cexServer).1 = .ok ∧
    ("t1", false) ∈ (stopSession "s1" false "u" 9 cexServer).2.mem.resolutions :=
  ⟨(C5_stop_session_rejects_and_deactivates "s1" "u" false 9 cexServer).1,
    (C5_stop_session_rejects_and_deactivates "s1" "u" false 9 cexServer).2.2.1
      { id := "t1", sessionId := "s1", sessionLabel := none, client := "c"
        description := "d", draft := cexDraft, policyId := "p"
        policyLabel := "P", createdAt := 5 }
      (by decide) rfl⟩

/-- Scheduling expiry never touches resolutions or waiters. -/
theorem scheduleExpiry_preserves (now : Nat) (st : DurableApprovals)
    (t : ApprovalTaskRow) :
    (scheduleExpiry now st t).resolutions = st.resolutions ∧
    (scheduleExpiry now st t).waiters = st.waiters := by
  unfold scheduleExpiry expirePendingTask
  by_cases h1 : t.expiresAt ≤ now
  · rw [if_pos h1]
    exact ⟨rfl, rfl⟩
  · rw [if_neg h1]
    by_cases h2 : t.id ∈ st.orphanTimers
    · rw [if_pos h2]
      exact ⟨rfl, rfl⟩
    · rw [if_neg h2]
      exact ⟨rfl, rfl⟩

/-- Folding expiry scheduling never touches resolutions or waiters. -/
theorem foldSched_preserves (now : Nat) (ts : List ApprovalTaskRow) :
    ∀ st : DurableApprovals,
      ((ts.foldl (scheduleExpiry now) st).resolutions = st.resolutions ∧
       (ts.foldl (scheduleExpiry now) st).waiters = st.waiters) := by
  induction ts with
  | nil => intro st; exact ⟨rfl, rfl⟩
  | cons t ts ih =>
    intro st
    obtain ⟨hr, hw⟩ := ih (scheduleExpiry now st t)
    obtain ⟨hr0, hw0⟩ := scheduleExpiry_preserves now st t
    exact ⟨hr.trans hr0, hw.trans hw0⟩

/-- A status update keeps every row present. -/
theorem rowStatus_update_isSome (rows : List ApprovalTaskRow)
    (i i' : String) (s : ApprovalStatus)
    (h : (rowStatus rows i).isSome) :
    (rowStatus (updateApprovalTaskStatus i' s rows) i).isSome := by
  unfold rowStatus at h ⊢
  rw [Option.isSome_map'] at h ⊢
  obtain ⟨x, hx, hp⟩ := List.find?_isSome.mp h
  apply List.find?_isSome.mpr
  refine ⟨if x.id = i' then { x with status := s } else x,
    List.mem_map.mpr ⟨x, hx, rfl⟩, ?_⟩
  by_cases h0 : x.id = i'
  · rw [if_pos h0]
    simpa using hp
  · rw [if_neg h0]
    exact hp

/-- Updating a present row stores the new status. -/
theorem rowStatus_update_self (rows : List ApprovalTaskRow) (i : String)
    (s : ApprovalStatus) (h : (rowStatus rows i).isSome) :
    rowStatus (updateApprovalTaskStatus i s rows) i = some s := by
  induction rows with
  | nil => simp [rowStatus] at h
  | cons r rs ih =>
    by_cases h0 : r.id = i
    · unfold updateApprovalTaskStatus
      rw [List.map_cons, if_pos h0]
      unfold rowStatus
      rw [List.find?_cons_of_pos _ (by simpa using h0)]
      rfl
    · unfold updateApprovalTaskStatus at ih ⊢
      rw [List.map_cons, if_neg h0]
      unfold rowStatus at h ih ⊢
      rw [List.find?_cons_of_neg _ (by simpa using h0)] at h ⊢
      exact ih h

/-- Updating another id leaves a row status unchanged. -/
theorem rowStatus_update_other (rows : List ApprovalTaskRow)
    (i i' : String) (s : ApprovalStatus) (h : i ≠ i') :
    rowStatus (updateApprovalTaskStatus i' s rows) i = rowStatus rows i := by
  induction rows with
  | nil => rfl
  | cons r rs ih =>
    unfold updateApprovalTaskStatus at ih ⊢
    rw [List.map_cons]
    by_cases h0 : r.id = i
    · rw [if_neg (fun hc => h (h0 ▸ hc))]
      unfold rowStatus
      rw [List.find?_cons_of_pos _ (by simpa using h0),
        List.find?_cons_of_pos _ (by simpa using h0)]
    · by_cases h1 : r.id = i'
      · rw [if_pos h1]
        unfold rowStatus
        rw [List.find?_cons_of_neg _ (by simpa using h0),
          List.find?_cons_of_neg _ (by simpa using h0)]
        exact ih
      · rw [if_neg h1]
        unfold rowStatus
        rw [List.find?_cons_of_neg _ (by simpa using h0),
          List.find?_cons_of_neg _ (by simpa using h0)]
        exact ih

/-- An expired row stays expired under any expiry update. -/
theorem rowStatus_update_expired_stable (rows : List ApprovalTaskRow)
    (i i' : String) (h : rowStatus rows i = some .expired) :
    rowStatus (updateApprovalTaskStatus i' .expired rows) i = some .expired := by
  by_cases h0 : i = i'
  · subst h0
    exact rowStatus_update_self rows i .expired (h ▸ rfl)
  · rw [rowStatus_update_other rows i i' .expired h0]
    exact h

/-- An expired row stays expired under expiry scheduling. -/
theorem scheduleExpiry_expired_stable (now : Nat) (st : DurableApprovals)
    (t : ApprovalTaskRow) (i : String)
    (h : rowStatus st.rows i = some .expired) :
    rowStatus (scheduleExpiry now st t).rows i = some .expired := by
  unfold scheduleExpiry expirePendingTask
  by_cases h1 : t.expiresAt ≤ now
  · rw [if_pos h1]
    exact rowStatus_update_expired_stable st.rows i t.id h
  · rw [if_neg h1]
    by_cases h2 : t.id ∈ st.orphanTimers
    · rw [if_pos h2]
      exact h
    · rw [if_neg h2]
      exact h

/-- Presence of a row is kept by expiry scheduling. -/
theorem scheduleExpiry_isSome (now : Nat) (st : DurableApprovals)
    (t : ApprovalTaskRow) (i : String)
    (h : (rowStatus st.rows i).isSome) :
    (rowStatus (scheduleExpiry now st t).rows i).isSome := by
  unfold scheduleExpiry expirePendingTask
  by_cases h1 : t.expiresAt ≤ now
  · rw [if_pos h1]
    exact rowStatus_update_isSome st.rows i t.id .expired h
  · rw [if_neg h1]
    by_cases h2 : t.id ∈ st.orphanTimers
    · rw [if_pos h2]
      exact h
    · rw [if_neg h2]
      exact h

/-- An expired row stays expired along a whole scheduling fold. -/
theorem foldSched_expired_stable (now : Nat) (ts : List ApprovalTaskRow) :
    ∀ st : DurableApprovals, ∀ i : String,
      rowStatus st.rows i = some .expired →
      rowStatus ((ts.foldl (scheduleExpiry now) st).rows) i = some .expired := by
  induction ts with
  | nil => intro st i h; exact h
  | cons t ts ih =>
    intro st i h
    exact ih (scheduleExpiry now st t) i
      (scheduleExpiry_expired_stable now st t i h)

/-- A past-due task processed by the scheduling fold ends expired. -/
theorem foldSched_due (now : Nat) (ts : List ApprovalTaskRow) :
    ∀ st : DurableApprovals, ∀ r ∈ ts, r.expiresAt ≤ now →
      (rowStatus st.rows r.id).isSome →
      rowStatus ((ts.foldl (scheduleExpiry now) st).rows) r.id = some .expired := by
  induction ts with
  | nil => intro st r hr; exact absurd hr (List.not_mem_nil r)
  | cons t ts ih =>
    intro st r hr hdue hsome
    rcases List.mem_cons.mp hr with heq | hmem
    · subst heq
      have hstep : rowStatus (scheduleExpiry now st r).rows r.id =
          some .expired := by
        unfold scheduleExpiry expirePendingTask
        rw [if_pos hdue]
        exact rowStatus_update_self st.rows r.id .expired hsome
      exact foldSched_expired_stable now ts (scheduleExpiry now st r) r.id hstep
    · exact ih (scheduleExpiry now st t) r hmem hdue
        (scheduleExpiry_isSome now st t r.id hsome)

/-- C3 (amended): the signing pipeline's REFER path registers an
in-memory pending approval and suspends on its decision, persisting no
approval-task row and arming no timer (the durable state is untouched);
and in the durable approval-task module, every pending row already past
its expiry when restore runs transitions to expired immediately, with
the waiter set and resolutions log untouched, so its decision never
resolves to approved. -/
theorem C3_amended_refer_in_memory_and_boot_expiry :
    (∀ (autoApprove : Bool) (policy : SigningTemplate)
        (session : SessionSummary) (sessionLabel : Option String)
        (draft : EventTemplate) (client : String)
        (uuidReq uuidDec uuidTask : String) (now : Nat)
        (st : DaemonApprovalState),
      policy.evaluate { event := draft, client := client, session := session } =
          .ok .REFER →
        (onSignEvent autoApprove policy session sessionLabel draft client
            uuidReq uuidDec uuidTask now st).1 = .suspended uuidTask ∧
        (onSignEvent autoApprove policy session sessionLabel draft client
            uuidReq uuidDec uuidTask now st).2.mem.approvals =
          st.mem.approvals ++
            [{ id := uuidTask, sessionId := session.id
               sessionLabel := session.aliasName, client := client
               description := formatPubkey client ++ " " ++ describeEvent draft
               draft := draft, policyId := policy.id
               policyLabel := policy.label, createdAt := now }] ∧
        (onSignEvent autoApprove policy session sessionLabel draft client
            uuidReq uuidDec uuidTask now st).2.mem.resolutions =
          st.mem.resolutions ∧
        (onSignEvent autoApprove policy session sessionLabel draft client
            uuidReq uuidDec uuidTask now st).2.durable = st.durable) ∧
    (∀ (now : Nat) (dst : DurableApprovals) (r : ApprovalTaskRow),
      r ∈ dst.rows → r.status = .pending → r.expiresAt ≤ now →
        rowStatus (restorePendingApprovalTimers now dst).rows r.id =
          some .expired ∧
        (restorePendingApprovalTimers now dst).resolutions =
          dst.resolutions ∧
        (restorePendingApprovalTimers now dst).waiters = dst.waiters) := by
  constructor
  · intro autoApprove policy session sessionLabel draft client uuidReq
      uuidDec uuidTask now st h
    unfold onSignEvent
    rw [h]
    exact ⟨rfl, rfl, rfl, rfl⟩
  · intro now dst r hr hpend hdue
    unfold restorePendingApprovalTimers
    refine ⟨?_, (foldSched_preserves now _ dst).1, (foldSched_preserves now _ dst).2⟩
    apply foldSched_due
    · exact List.mem_filter.mpr ⟨hr, by simp [hpend]⟩
    · exact hdue
    · unfold rowStatus
      rw [Option.isSome_map']
      exact List.find?_isSome.mpr ⟨r, hr, by simp⟩

/-- C3 counterexample: a concrete REFER from the login-requires-approval
policy registers only an in-memory approval; no approval_tasks row is
persisted and no timer is armed. -/
theorem C3_counterexample_refer_not_persisted :
    (onSignEvent true loginRequiresApproval cexSession (some "alias") cexDraft
        "c" "u1" "u2" "u3" 1000 cexState0).1 = .suspended "u3" ∧
    (onSignEvent true loginRequiresApproval cexSession (some "alias") cexDraft
        "c" "u1" "u2" "u3" 1000 cexState0).2.mem.approvals.length = 1 ∧
    (onSignEvent true loginRequiresApproval cexSession (some "alias") cexDraft
        "c" "u1" "u2" "u3" 1000 cexState0).2.durable.rows = [] ∧
    (onSignEvent true loginRequiresApproval cexSession (some "alias") cexDraft
        "c" "u1" "u2" "u3" 1000 cexState0).2.durable.waiters = [] ∧
    (onSignEvent true loginRequiresApproval cexSession (some "alias") cexDraft
        "c" "u1" "u2" "u3" 1000 cexState0).2.durable.orphanTimers = [] := by
  exact ⟨by decide, by decide, by decide, by decide, by decide⟩

/-- C3 witness: the amended theorem applied to a concrete REFER and a
concrete past-due pending row. -/
theorem C3_amended_witness :
    (onSignEvent true loginRequiresApproval cexSession (some "alias") cexDraft
        "c" "u1" "u2" "u3" 1000 cexState0).1 = .suspended "u3" ∧
    rowStatus (restorePendingApprovalTimers 100
        ⟨[⟨"t1", "s", "c", "d", 1, 50, .pending⟩], [], [], []⟩).rows "t1" =
      some .expired :=
  ⟨(C3_amended_refer_in_memory_and_boot_expiry.1 true loginRequiresApproval
      cexSession (some "alias") cexDraft "c" "u1" "u2" "u3" 1000 cexState0
      rfl).1,
    (C3_amended_refer_in_memory_and_boot_expiry.2 100
      ⟨[⟨"t1", "s", "c", "d", 1, 50, .pending⟩], [], [], []⟩
      ⟨"t1", "s", "c", "d", 1, 50, .pending⟩
      (by decide) rfl (by decide)).1⟩

/-- Appending one resolution bumps exactly its task's count. -/
theorem filterFst_append_single (res : List (String × Bool))
    (i0 i : String) (b : Bool) :
    ((res ++ [(i0, b)]).filter (fun p => p.1 = i)).length =
      (res.filter (fun p => p.1 = i)).length + (if i0 = i then 1 else 0) := by
  rw [List.filter_append, List.length_append]
  congr 1
  by_cases h : i0 = i
  · simp [h]
  · simp [h]

/-- Removing one id from the waiter list zeroes its count and keeps the
others. -/
theorem count_filter_ne (l : List String) (i0 i : String) :
    (l.filter (fun w => w ≠ i0)).count i =
      if i = i0 then 0 else l.count i := by
  by_cases h : i = i0
  · subst h
    rw [if_pos rfl]
    apply List.count_eq_zero.mpr
    intro hmem
    have := (List.mem_filter.mp hmem).2
    simp at this
  · rw [if_neg h]
    exact List.count_filter (by simp [h])

/-- Appending one waiter bumps exactly its count. -/
theorem count_append_single (l : List String) (u i : String) :
    (l ++ [u]).count i = l.count i + (if u = i then 1 else 0) := by
  rw [List.count_append]
  congr 1
  by_cases h : u = i
  · simp [h, List.count_singleton]
  · rw [List.count_singleton, if_neg (by simpa using h), if_neg h]

/-- One create operation at the head of a trace accounts for one
create of its uuid. -/
theorem createCount_cons (op : DurOp) (ops : List DurOp) (i : String) :
    createCount (op :: ops) i =
      (if op.createdId = some i then 1 else 0) + createCount ops i := by
  by_cases h : op.createdId = some i
  · simp [createCount, List.filter_cons, h, Nat.add_comm]
  · simp [createCount, List.filter_cons, h]

/-- One manager step preserves waiter distinctness and shifts the
resolution-plus-waiter account by exactly the creates it performs. -/
theorem durStep_accounting (st : DurableApprovals) (op : DurOp)
    (hfresh : freshForB op st = true) (hnd : st.waiters.Nodup) :
    (durStep st op).waiters.Nodup ∧
    ∀ i, resCount (durStep st op) i + (durStep st op).waiters.count i =
      resCount st i + st.waiters.count i +
        (if op.createdId = some i then 1 else 0) := by
  cases op with
  | create uuid now sessionId client draftJson expiresAt =>
    simp only [freshForB] at hfresh
    have hnotmem : uuid ∉ st.waiters := of_decide_eq_true hfresh
    constructor
    · show (st.waiters ++ [uuid]).Nodup
      rw [List.nodup_append]
      exact ⟨hnd, List.nodup_singleton uuid,
        fun a ha hb => hnotmem ((List.mem_singleton.mp hb) ▸ ha)⟩
    · intro i
      show resCount st i + (st.waiters ++ [uuid]).count i =
        resCount st i + st.waiters.count i +
          (if some uuid = some i then 1 else 0)
      rw [count_append_single]
      by_cases h : uuid = i
      · rw [if_pos h, if_pos (by rw [h])]
        omega
      · rw [if_neg h, if_neg (fun hc => h (Option.some.inj hc))]
        omega
  | timer i0 =>
    show (fireApprovalTimer i0 st).waiters.Nodup ∧
      ∀ i, resCount (fireApprovalTimer i0 st) i +
        (fireApprovalTimer i0 st).waiters.count i =
        resCount st i + st.waiters.count i +
          (if none = some i then 1 else 0)
    unfold fireApprovalTimer
    by_cases hmem : i0 ∈ st.waiters
    · rw [if_pos hmem]
      constructor
      · exact hnd.filter _
      · intro i
        show ((st.resolutions ++ [(i0, false)]).filter
            (fun p => p.1 = i)).length +
          (st.waiters.filter (fun w => w ≠ i0)).count i =
          resCount st i + st.waiters.count i +
            (if none = some i then 1 else 0)
        rw [filterFst_append_single, count_filter_ne,
          if_neg (fun hc => Option.noConfusion hc)]
        by_cases h : i = i0
        · subst h
          rw [if_pos rfl, if_pos rfl]
          have hcnt : st.waiters.count i = 1 :=
            List.count_eq_one_of_mem hnd hmem
          unfold resCount
          omega
        · rw [if_neg (fun hc => h hc.symm), if_neg h]
          unfold resCount
          omega
    · rw [if_neg hmem]
      refine ⟨hnd, fun i => ?_⟩
      rw [if_neg (fun hc => Option.noConfusion hc)]
      omega
  | resolve i0 ts =>
    show (resolveApproval i0 ts st).waiters.Nodup ∧
      ∀ i, resCount (resolveApproval i0 ts st) i +
        (resolveApproval i0 ts st).waiters.count i =
        resCount st i + st.waiters.count i +
          (if none = some i then 1 else 0)
    unfold resolveApproval
    by_cases hmem : i0 ∈ st.waiters
    · rw [if_pos hmem]
      constructor
      · exact hnd.filter _
      · intro i
        show ((st.resolutions ++
            [(i0, decide (ts = TerminalStatus.approved))]).filter
            (fun p => p.1 = i)).length +
          (st.waiters.filter (fun w => w ≠ i0)).count i =
          resCount st i + st.waiters.count i +
            (if none = some i then 1 else 0)
        rw [filterFst_append_single, count_filter_ne,
          if_neg (fun hc => Option.noConfusion hc)]
        by_cases h : i = i0
        · subst h
          rw [if_pos rfl, if_pos rfl]
          have hcnt : st.waiters.count i = 1 :=
            List.count_eq_one_of_mem hnd hmem
          unfold resCount
          omega
        · rw [if_neg (fun hc => h hc.symm), if_neg h]
          unfold resCount
          omega
    · rw [if_neg hmem]
      refine ⟨hnd, fun i => ?_⟩
      show resCount st i + st.waiters.count i =
        resCount st i + st.waiters.count i +
          (if none = some i then 1 else 0)
      rw [if_neg (fun hc => Option.noConfusion hc)]
      omega
  | expire i0 =>
    refine ⟨hnd, fun i => ?_⟩
    show resCount st i + st.waiters.count i =
      resCount st i + st.waiters.count i +
        (if none = some i then 1 else 0)
    rw [if_neg (fun hc => Option.noConfusion hc)]
    omega
  | boot now =>
    show (restorePendingApprovalTimers now st).waiters.Nodup ∧
      ∀ i, resCount (restorePendingApprovalTimers now st) i +
        (restorePendingApprovalTimers now st).waiters.count i =
        resCount st i + st.waiters.count i +
          (if none = some i then 1 else 0)
    have hpre := foldSched_preserves now
      (st.rows.filter (fun r => r.status = ApprovalStatus.pending)) st
    unfold restorePendingApprovalTimers
    constructor
    · rw [hpre.2]
      exact hnd
    · intro i
      unfold resCount
      rw [hpre.1, hpre.2, if_neg (fun hc => Option.noConfusion hc)]
      omega

/-- Accounting invariant along any well-formed trace. -/
theorem durRun_accounting (ops : List DurOp) :
    ∀ st : DurableApprovals, wfFromB st ops = true → st.waiters.Nodup →
      (durRun st ops).waiters.Nodup ∧
      ∀ i, resCount (durRun st ops) i + (durRun st ops).waiters.count i =
        resCount st i + st.waiters.count i + createCount ops i := by
  induction ops with
  | nil =>
    intro st _ hnd
    exact ⟨hnd, fun i => by simp [durRun, createCount]⟩
  | cons op ops ih =>
    intro st hwf hnd
    have hwf2 : freshForB op st = true ∧ wfFromB (durStep st op) ops = true := by
      simpa [wfFromB, Bool.and_eq_true] using hwf
    obtain ⟨hnd1, hcnt1⟩ := durStep_accounting st op hwf2.1 hnd
    obtain ⟨hnd2, hcnt2⟩ := ih (durStep st op) hwf2.2 hnd1
    refine ⟨hnd2, fun i => ?_⟩
    have hrun : durRun st (op :: ops) = durRun (durStep st op) ops := rfl
    rw [hrun, hcnt2 i, hcnt1 i, createCount_cons]
    omega

/-- A non-create step never writes a pending status into the table. -/
theorem update_mem_pending (i : String) (s : ApprovalStatus)
    (rows : List ApprovalTaskRow) (r : ApprovalTaskRow)
    (hs : s ≠ .pending) (hr : r ∈ updateApprovalTaskStatus i s rows)
    (hp : r.status = .pending) : r ∈ rows := by
  obtain ⟨r0, hr0, hif⟩ := List.mem_map.mp hr
  by_cases h0 : r0.id = i
  · rw [if_pos h0] at hif
    rw [← hif] at hp
    exact absurd hp hs
  · rw [if_neg h0] at hif
    exact hif ▸ hr0

/-- Expiry scheduling never writes a pending status. -/
theorem scheduleExpiry_mem_pending (now : Nat) (st : DurableApprovals)
    (t : ApprovalTaskRow) (r : ApprovalTaskRow)
    (hr : r ∈ (scheduleExpiry now st t).rows) (hp : r.status = .pending) :
    r ∈ st.rows := by
  unfold scheduleExpiry expirePendingTask at hr
  by_cases h1 : t.expiresAt ≤ now
  · rw [if_pos h1] at hr
    exact update_mem_pending t.id .expired st.rows r (by decide) hr hp
  · rw [if_neg h1] at hr
    by_cases h2 : t.id ∈ st.orphanTimers
    · rw [if_pos h2] at hr
      exact hr
    · rw [if_neg h2] at hr
      exact hr

/-- The scheduling fold never writes a pending status. -/
theorem foldSched_mem_pending (now : Nat) (ts : List ApprovalTaskRow) :
    ∀ st : DurableApprovals, ∀ r ∈ (ts.foldl (scheduleExpiry now) st).rows,
      r.status = .pending → r ∈ st.rows := by
  induction ts with
  | nil => intro st r hr _; exact hr
  | cons t ts ih =>
    intro st r hr hp
    exact scheduleExpiry_mem_pending now st t r
      (ih (scheduleExpiry now st t) r hr hp) hp

/-- C4 counterexample: after resolve-approved the stored status of task
t1 is approved, yet one further resolve-rejected call on the same trace
overwrites it to rejected: the status column is not monotonic once the
task has left pending. -/
theorem C4_counterexample_status_not_monotonic :
    rowStatus (durRun DurableApprovals.empty
      [DurOp.create "t1" 100 "s1" "c" "dj" 700,
       DurOp.resolve "t1" TerminalStatus.approved]).rows "t1" =
      some .approved ∧
    rowStatus (durRun DurableApprovals.empty
      [DurOp.create "t1" 100 "s1" "c" "dj" 700,
       DurOp.resolve "t1" TerminalStatus.approved,
       DurOp.resolve "t1" TerminalStatus.rejected]).rows "t1" =
      some .rejected ∧
    durRun DurableApprovals.empty
      [DurOp.create "t1" 100 "s1" "c" "dj" 700,
       DurOp.resolve "t1" TerminalStatus.approved,
       DurOp.resolve "t1" TerminalStatus.rejected] =
      durStep (durRun DurableApprovals.empty
        [DurOp.create "t1" 100 "s1" "c" "dj" 700,
         DurOp.resolve "t1" TerminalStatus.approved])
        (DurOp.resolve "t1" TerminalStatus.rejected) := by
  exact ⟨by decide, by decide, by decide⟩

/-- C4 (amended): along any trace of durable-approval operations whose
creates use fresh uuids, the number of resolutions delivered for a task
plus its registered waiters equals the number of its creates — so each
task's decision resolves at most once, and exactly once in any trace
that ends with its waiter cleared; and no operation other than create
ever writes a pending status, so every transition out of pending
targets approved, rejected or expired.  The status column itself is
not monotonic: a later resolve or expiry overwrites a terminal
status. -/
theorem C4_amended_resolution_accounting :
    (∀ ops : List DurOp, wfFromB DurableApprovals.empty ops = true →
      ∀ i, resCount (durRun DurableApprovals.empty ops) i +
        (durRun DurableApprovals.empty ops).waiters.count i =
          createCount ops i) ∧
    (∀ (st : DurableApprovals) (op : DurOp) (r : ApprovalTaskRow),
      op.createdId = none → r ∈ (durStep st op).rows →
        r.status = .pending → r ∈ st.rows) := by
  constructor
  · intro ops hwf i
    have h := (durRun_accounting ops DurableApprovals.empty hwf
      List.nodup_nil).2 i
    simpa [resCount, DurableApprovals.empty] using h
  · intro st op r hop hr hp
    cases op with
    | create uuid now sessionId client draftJson expiresAt =>
      exact absurd hop (by simp [DurOp.createdId])
    | timer i0 =>
      replace hr : r ∈ (fireApprovalTimer i0 st).rows := hr
      unfold fireApprovalTimer at hr
      by_cases hmem : i0 ∈ st.waiters
      · rw [if_pos hmem] at hr
        exact update_mem_pending i0 .expired st.rows r (by decide) hr hp
      · rw [if_neg hmem] at hr
        exact hr
    | resolve i0 ts =>
      have hts : ts.toStatus ≠ .pending := by
        cases ts <;> decide
      replace hr : r ∈ (resolveApproval i0 ts st).rows := hr
      unfold resolveApproval at hr
      by_cases hmem : i0 ∈ st.waiters
      · rw [if_pos hmem] at hr
        exact update_mem_pending i0 ts.toStatus st.rows r hts hr hp
      · rw [if_neg hmem] at hr
        exact update_mem_pending i0 ts.toStatus st.rows r hts hr hp
    | expire i0 =>
      replace hr : r ∈ (expirePendingTask i0 st).rows := hr
      exact update_mem_pending i0 .expired st.rows r (by decide) hr hp
    | boot now =>
      replace hr : r ∈ (restorePendingApprovalTimers now st).rows := hr
      exact foldSched_mem_pending now _ st r hr hp

/-- C4 witness: the accounting applied to a concrete create-then-expire
trace resolves the task exactly once. -/
theorem C4_amended_witness :
    resCount (durRun DurableApprovals.empty
        [DurOp.create "t1" 100 "s1" "c" "dj" 700, DurOp.timer "t1"]) "t1" +
      (durRun DurableApprovals.empty
        [DurOp.create "t1" 100 "s1" "c" "dj" 700,
         DurOp.timer "t1"]).waiters.count "t1" =
      createCount [DurOp.create "t1" 100 "s1" "c" "dj" 700,
        DurOp.timer "t1"] "t1" :=
  C4_amended_resolution_accounting.1
    [DurOp.create "t1" 100 "s1" "c" "dj" 700, DurOp.timer "t1"]
    (by decide) "t1"

end Intercessio
